import Mathlib

/-!
# Verification of the Summer-of-Bitcoin construction engine

A shallow embedding of the repository's three Python programs (week 1:
node interaction, out of scope here; week 2: building a P2SH-P2WSH
multisig transaction; week 3: mining a block) together with proofs of the
frozen claims about them.

Bytes are modelled as `List Nat` (each entry a byte value); transactions
and blocks are byte lists built by the same concatenations the source
performs.  SHA-256 is implemented concretely (FIPS 180-4) so that digests
evaluate inside the kernel.  Python `bytes` comparison is lexicographic
order on byte lists; Python exceptions are modelled with `Except String`.
-/

set_option maxRecDepth 100000
set_option linter.unusedVariables false

/-! ## SHA-256 (concrete, FIPS 180-4) -/

/-- Reduce modulo 2^32 (machine-word wraparound for SHA-256 word arithmetic). -/
def w32 (x : Nat) : Nat := x % 4294967296

/-- Rotate a 32-bit word right by `n`. -/
def rotr32 (n x : Nat) : Nat := w32 ((x >>> n) ||| (x <<< (32 - n)))

def ch32 (x y z : Nat) : Nat := (x &&& y) ^^^ ((x ^^^ 4294967295) &&& z)

def maj32 (x y z : Nat) : Nat := (x &&& y) ^^^ (x &&& z) ^^^ (y &&& z)

def bsig0 (x : Nat) : Nat := rotr32 2 x ^^^ rotr32 13 x ^^^ rotr32 22 x

def bsig1 (x : Nat) : Nat := rotr32 6 x ^^^ rotr32 11 x ^^^ rotr32 25 x

def ssig0 (x : Nat) : Nat := rotr32 7 x ^^^ rotr32 18 x ^^^ (x >>> 3)

def ssig1 (x : Nat) : Nat := rotr32 17 x ^^^ rotr32 19 x ^^^ (x >>> 10)

/-- The 64 SHA-256 round constants. -/
def sha256K : List Nat :=
  [1116352408, 1899447441, 3049323471, 3921009573, 961987163,
   1508970993, 2453635748, 2870763221, 3624381080, 310598401,
   607225278, 1426881987, 1925078388, 2162078206, 2614888103,
   3248222580, 3835390401, 4022224774, 264347078, 604807628,
   770255983, 1249150122, 1555081692, 1996064986, 2554220882,
   2821834349, 2952996808, 3210313671, 3336571891, 3584528711,
   113926993, 338241895, 666307205, 773529912, 1294757372,
   1396182291, 1695183700, 1986661051, 2177026350, 2456956037,
   2730485921, 2820302411, 3259730800, 3345764771, 3516065817,
   3600352804, 4094571909, 275423344, 430227734, 506948616,
   659060556, 883997877, 958139571, 1322822218, 1537002063,
   1747873779, 1955562222, 2024104815, 2227730452, 2361852424,
   2428436474, 2756734187, 3204031479, 3329325298]

/-- SHA-256 initial hash state. -/
def sha256IV : List Nat :=
  [1779033703, 3144134277, 1013904242, 2773480762, 1359893119,
   2600822924, 528734635, 1541459225]

/-- Big-endian 4-byte encoding of a 32-bit word. -/
def be32 (n : Nat) : List Nat := [n / 16777216 % 256, n / 65536 % 256, n / 256 % 256, n % 256]

/-- Big-endian 8-byte encoding. -/
def be64 (n : Nat) : List Nat := be32 (n / 4294967296) ++ be32 (n % 4294967296)

/-- Group bytes 4 at a time into big-endian 32-bit words. -/
def msgWords : List Nat → List Nat
  | a :: b :: c :: d :: t => (a * 16777216 + b * 65536 + c * 256 + d) :: msgWords t
  | _ => []

/-- Extend the 16 block words to the 64-word message schedule (48 extension steps). -/
def extendWs : Nat → List Nat → List Nat
  | 0, ws => ws
  | n + 1, ws =>
      let k := ws.length
      extendWs n (ws ++ [w32 (ssig1 (ws.getD (k - 2) 0) + ws.getD (k - 7) 0 +
        ssig0 (ws.getD (k - 15) 0) + ws.getD (k - 16) 0)])

/-- The 64 SHA-256 rounds over the working variables. -/
def sha256Rounds : List (Nat × Nat) → Nat → Nat → Nat → Nat → Nat → Nat → Nat → Nat → List Nat
  | [], a, b, c, d, e, f, g, h => [a, b, c, d, e, f, g, h]
  | (k, w) :: kws, a, b, c, d, e, f, g, h =>
      let t1 := w32 (h + bsig1 e + ch32 e f g + k + w)
      let t2 := w32 (bsig0 a + maj32 a b c)
      sha256Rounds kws (w32 (t1 + t2)) a b c (w32 (d + t1)) e f g

/-- One SHA-256 compression: fold a 64-byte block into the 8-word state. -/
def sha256Compress (st : List Nat) (block : List Nat) : List Nat :=
  let ws := extendWs 48 (msgWords block)
  let out := sha256Rounds (sha256K.zip ws) (st.getD 0 0) (st.getD 1 0) (st.getD 2 0) (st.getD 3 0)
    (st.getD 4 0) (st.getD 5 0) (st.getD 6 0) (st.getD 7 0)
  List.zipWith (fun x y => w32 (x + y)) st out

/-- SHA-256 padding: append 0x80, zero bytes, and the 8-byte big-endian bit length. -/
def sha256Pad (msg : List Nat) : List Nat :=
  msg ++ 128 :: (List.replicate ((119 - msg.length % 64) % 64) 0 ++ be64 (8 * msg.length))

/-- Process `n` consecutive 64-byte blocks. -/
def sha256Chunks : Nat → List Nat → List Nat → List Nat
  | 0, st, _ => st
  | n + 1, st, msg => sha256Chunks n (sha256Compress st (msg.take 64)) (msg.drop 64)

/-- SHA-256 of a byte list, as its 32 digest bytes. -/
def sha256 (msg : List Nat) : List Nat :=
  let p := sha256Pad msg
  (sha256Chunks (p.length / 64) sha256IV p).flatMap be32

/-- Double SHA-256: the mining program's `hash_twice` helper (week 3, line 14),
and the digest `hashlib.sha256(hashlib.sha256(x).digest()).digest()` the week-2
program writes out inline. -/
def hash_twice (d : List Nat) : List Nat := sha256 (sha256 d)

/-! ## Little-endian integer encodings (Python `struct.pack`) -/

/-- `struct.pack('<H', n)`. -/
def le16 (n : Nat) : List Nat := [n % 256, n / 256 % 256]

/-- `struct.pack('<I', n)`. -/
def le32 (n : Nat) : List Nat := [n % 256, n / 256 % 256, n / 65536 % 256, n / 16777216 % 256]

/-- `struct.pack('<Q', n)`. -/
def le64 (n : Nat) : List Nat := le32 (n % 4294967296) ++ le32 (n / 4294967296)

/-! ## Week 2: building a P2SH-P2WSH multisig transaction
Embeds `2025-dev-week-2-building-a-p2sh-p2wsh-multisig-tx/python/main.py`. -/

/-- `serialize_varint` (week 2, lines 8-17). -/
def serialize_varint (value : Nat) : List Nat :=
  if value < 0xfd then [value]
  else if value ≤ 0xffff then 0xfd :: le16 value
  else if value ≤ 0xffffffff then 0xfe :: le32 value
  else 0xff :: le64 value

/-- A transaction input as the week-2 program represents it: the
`prev_txid`/`prev_index`/`script_sig`/`sequence` dictionary. -/
structure TxIn where
  prev_txid : List Nat
  prev_index : Nat
  script_sig : List Nat
  sequence : Nat
deriving DecidableEq

/-- A transaction output: the `value`/`script_pubkey` dictionary. -/
structure TxOut where
  value : Nat
  script_pubkey : List Nat
deriving DecidableEq

/-- `serialize_inputs` (week 2, lines 43-51): the `+=` accumulation over the
input list, as a concatenation per input. -/
def serialize_inputs (tx_inputs : List TxIn) : List Nat :=
  tx_inputs.flatMap (fun txin =>
    txin.prev_txid ++ le32 txin.prev_index ++
    serialize_varint txin.script_sig.length ++ txin.script_sig ++ le32 txin.sequence)

/-- `serialize_outputs` (week 2, lines 54-60). -/
def serialize_outputs (tx_outputs : List TxOut) : List Nat :=
  tx_outputs.flatMap (fun txout =>
    le64 txout.value ++ serialize_varint txout.script_pubkey.length ++ txout.script_pubkey)

/-- `calculate_sighash` (week 2, lines 63-94).  The source indexes
`tx_inputs[0]` (it would raise on an empty list); the embedding uses `headD`
with an all-zero input, and the claims only instantiate non-empty lists.
Note the two literal constants the source packs into the preimage:
`struct.pack('<Q', 100000)` commented `# UTXO value` and
`struct.pack('<I', 0)` commented `# locktime` — the `locktime` parameter is
never used. -/
def calculate_sighash (tx_version : Nat) (tx_inputs : List TxIn) (tx_outputs : List TxOut)
    (redeem_script : List Nat) (locktime : Nat) : List Nat :=
  let prevouts := hash_twice (tx_inputs.flatMap (fun txin => txin.prev_txid ++ le32 txin.prev_index))
  let sequences := hash_twice (tx_inputs.flatMap (fun txin => le32 txin.sequence))
  let scriptCode := serialize_varint redeem_script.length ++ redeem_script
  let outputs := hash_twice (tx_outputs.flatMap (fun txout =>
    le64 txout.value ++ serialize_varint txout.script_pubkey.length ++ txout.script_pubkey))
  let txin0 := tx_inputs.headD ⟨List.replicate 32 0, 0, [], 0⟩
  hash_twice (le32 tx_version ++ prevouts ++ sequences ++
    txin0.prev_txid ++ le32 txin0.prev_index ++ scriptCode ++
    le64 100000 ++ le32 txin0.sequence ++ outputs ++ le32 0 ++ le32 0x01)

/-- `assemble_transaction` (week 2, lines 108-129).  `witness` is the single
flat item list the source receives; one `serialize_varint (len witness)`
count is written for the whole transaction. -/
def assemble_transaction (tx_version : Nat) (tx_inputs : List TxIn) (tx_outputs : List TxOut)
    (witness : List (List Nat)) (locktime : Nat) : List Nat :=
  le32 tx_version ++ [0x00, 0x01] ++
  serialize_varint tx_inputs.length ++ serialize_inputs tx_inputs ++
  serialize_varint tx_outputs.length ++ serialize_outputs tx_outputs ++
  serialize_varint witness.length ++
  witness.flatMap (fun item => serialize_varint item.length ++ item) ++
  le32 locktime

/-! ### Base58Check decoding (the `base58` library the source calls) -/

/-- The Base58 alphabet. -/
def b58Alphabet : List Char :=
  ['1', '2', '3', '4', '5', '6', '7', '8', '9',
   'A', 'B', 'C', 'D', 'E', 'F', 'G', 'H', 'J', 'K', 'L', 'M', 'N', 'P', 'Q', 'R', 'S',
   'T', 'U', 'V', 'W', 'X', 'Y', 'Z',
   'a', 'b', 'c', 'd', 'e', 'f', 'g', 'h', 'i', 'j', 'k', 'm', 'n', 'o', 'p', 'q', 'r',
   's', 't', 'u', 'v', 'w', 'x', 'y', 'z']

/-- Position of a character in a list, or `none`. -/
def charIndex : List Char → Nat → Char → Option Nat
  | [], _, _ => none
  | a :: t, i, c => if a = c then some i else charIndex t (i + 1) c

/-- The Base58 digit value of a character. -/
def b58Digit (c : Char) : Option Nat := charIndex b58Alphabet 0 c

/-- Accumulate the Base58 big-integer value (`decimal = decimal * 58 + digit`),
failing on a character outside the alphabet. -/
def b58ToNat : List Char → Nat → Option Nat
  | [], acc => some acc
  | c :: t, acc =>
      match b58Digit c with
      | some d => b58ToNat t (acc * 58 + d)
      | none => none

/-- Big-endian base-256 digits of `n` (no leading zero bytes); the first
argument is recursion fuel, any bound on the byte length works. -/
def natToBEBytes : Nat → Nat → List Nat
  | 0, _ => []
  | f + 1, n => if n = 0 then [] else natToBEBytes f (n / 256) ++ [n % 256]

/-- The count of leading `'1'` characters, each contributing a leading zero
byte to the decoding. -/
def countLeadingOnes : List Char → Nat
  | [] => 0
  | c :: t => if c = '1' then countLeadingOnes t + 1 else 0

/-- `base58.b58decode`: alphabet digits to a big integer, then to bytes,
with one leading zero byte per leading `'1'`. -/
def b58decode (s : List Char) : Option (List Nat) :=
  (b58ToNat s 0).map (fun n => List.replicate (countLeadingOnes s) 0 ++ natToBEBytes s.length n)

/-- `base58.b58decode_check`: strip the last 4 bytes and compare them with the
first 4 bytes of the double SHA-256 of the rest; `ValueError` on mismatch. -/
def b58decode_check (s : List Char) : Except String (List Nat) :=
  match b58decode s with
  | none => Except.error "Invalid base58"
  | some raw =>
      let result := raw.take (raw.length - 4)
      let check := raw.drop (raw.length - 4)
      if (hash_twice result).take 4 = check then Except.ok result
      else Except.error "Invalid checksum"

/-- `create_scriptPubKey` (week 2, lines 36-40): Base58Check-decode the
address, strip the version byte, wrap in `OP_HASH160 push20 ... OP_EQUAL`. -/
def create_scriptPubKey (output_address : List Char) : Except String (List Nat) :=
  (b58decode_check output_address).map (fun decoded =>
    [0xa9, 0x14] ++ decoded.drop 1 ++ [0x87])

/-! ## Week 3: mining a block
Embeds `2025-dev-week-3-mining-a-block/python/main.py`.  JSON loading from
the mempool folder is I/O and out of scope; a loaded record is a `PoolTx`
whose four fields of interest are `Option`-valued because a JSON object may
lack any of them.  Hex strings are modelled as the byte lists they decode
to; a transaction id (`txid`, `wtxid`) is carried in display order, as in
the source's hex strings. -/

/-- A mempool record: `fee` and `weight` integers, `txid` (display-order
bytes) and `hex` (raw transaction bytes), each possibly missing. -/
structure PoolTx where
  fee? : Option Nat
  weight? : Option Nat
  txid? : Option (List Nat)
  hex? : Option (List Nat)
deriving DecidableEq

/-- `target_threshold` (week 3, line 10). -/
def target_threshold : List Nat := [0x00, 0x00, 0xff, 0xff] ++ List.replicate 28 0

/-- `witness_reserved_value = bytes(32)` (week 3, line 11). -/
def witness_reserved_value : List Nat := List.replicate 32 0

/-- `max_block_size` (week 3, line 12). -/
def max_block_size : Nat := 4000000

/-- A record's fee; only read after the `valid_txs` filter guarantees presence. -/
def txFee (tx : PoolTx) : Nat := tx.fee?.getD 0

/-- A record's weight; only read after the `valid_txs` filter guarantees presence. -/
def txWeight (tx : PoolTx) : Nat := tx.weight?.getD 0

/-- `valid_txs` before sorting (week 3, line 33): keep records that have both
a `fee` and a `weight` field — `txid` and `hex` are not checked. -/
def validTxs (pool : List PoolTx) : List PoolTx :=
  pool.filter (fun tx => tx.fee?.isSome && tx.weight?.isSome)

/-- The ordering the stable sort `valid_txs.sort(key=fee/weight, reverse=True)`
(week 3, line 34) realizes, on index-tagged records: strictly greater fee
density first, ties in original input order.  Density comparison is modelled
exactly by cross-multiplication (`fee a / weight a` against `fee b / weight b`
compared as `fee a * weight b` against `fee b * weight a`) rather than through
the IEEE doubles Python computes. -/
def densBefore (a b : Nat × PoolTx) : Bool :=
  decide (txFee b.2 * txWeight a.2 < txFee a.2 * txWeight b.2) ||
  (decide (txFee a.2 * txWeight b.2 = txFee b.2 * txWeight a.2) && decide (a.1 ≤ b.1))

/-- Insert into a `densBefore`-ordered list, before the first element the
inserted one precedes. -/
def insertByDens (x : Nat × PoolTx) : List (Nat × PoolTx) → List (Nat × PoolTx)
  | [] => [x]
  | y :: ys => if densBefore x y then x :: y :: ys else y :: insertByDens x ys

/-- Insertion sort by `densBefore`; a stable sort, so it produces the list
Python's stable `sort` produces. -/
def sortByDens : List (Nat × PoolTx) → List (Nat × PoolTx)
  | [] => []
  | x :: xs => insertByDens x (sortByDens xs)

/-- Tag each list element with its position, starting at `i`. -/
def tagIdx : Nat → List PoolTx → List (Nat × PoolTx)
  | _, [] => []
  | i, x :: xs => (i, x) :: tagIdx (i + 1) xs

/-- The sorted `valid_txs` list (week 3, line 34), tagged with each record's
original position so the tie-breaking of the stable sort is visible. -/
def sortedValid (pool : List PoolTx) : List (Nat × PoolTx) :=
  sortByDens (tagIdx 0 (validTxs pool))

/-- The greedy selection loop (week 3, lines 35-41): walk the sorted list,
accepting a record whenever its weight still fits the
`max_block_size - 4000` budget, carrying `(selected_txs, total_weight)`. -/
def selGo : List PoolTx → List PoolTx → Nat → List PoolTx × Nat
  | [], sel, tot => (sel, tot)
  | tx :: rest, sel, tot =>
      if tot + txWeight tx ≤ max_block_size - 4000 then
        selGo rest (sel ++ [tx]) (tot + txWeight tx)
      else selGo rest sel tot

/-- `selected_txs` (week 3, lines 35-41). -/
def selectedTxs (pool : List PoolTx) : List PoolTx :=
  (selGo ((sortedValid pool).map Prod.snd) [] 0).1

/-- `total_fees` (week 3, line 42). -/
def totalFees (pool : List PoolTx) : Nat :=
  ((selectedTxs pool).map txFee).sum

/-- The sum of the weights of a record list (the value `total_weight` tracks). -/
def weightSum (l : List PoolTx) : Nat := (l.map txWeight).sum

/-- The coinbase input's `script_sig` (week 3, line 50):
`pack('<B', 4) + b'\x00'*4`. -/
def scriptSigCB : List Nat := [4, 0, 0, 0, 0]

/-- The subsidy output's script (week 3, line 63):
`76a914` ++ twenty zero bytes ++ `88ac`. -/
def subsidyScript : List Nat :=
  [0x76, 0xa9, 0x14] ++ List.replicate 20 0 ++ [0x88, 0xac]

/-- The commitment script `6a24aa21a9ed` ++ commitment (week 3, lines 64/102). -/
def commitmentScript (c : List Nat) : List Nat :=
  [0x6a, 0x24, 0xaa, 0x21, 0xa9, 0xed] ++ c

/-- Pass-1 `coinbase_tx` (week 3, lines 46-72): the segwit-serialized coinbase
with the all-zero placeholder commitment, written field by field as the
source's `coinbase_stream.write` calls emit them. -/
def coinbaseTxPass1 (fees : Nat) : List Nat :=
  le32 1 ++
  [0x00] ++ [0x01] ++
  [0x01] ++
  List.replicate 32 0 ++
  le32 0xFFFFFFFF ++
  [scriptSigCB.length] ++ scriptSigCB ++
  [0xFF, 0xFF, 0xFF, 0xFF] ++
  [0x02] ++
  le64 (5000000000 + fees) ++
  [0x19] ++ subsidyScript ++
  List.replicate 8 0 ++
  [(commitmentScript (List.replicate 32 0)).length] ++ commitmentScript (List.replicate 32 0) ++
  [0x01] ++
  [0x20] ++
  witness_reserved_value ++
  le32 0

/-- Pass-2 `coinbase_tx_final` (week 3, lines 88-110): the same write
sequence with the computed witness commitment in place of the placeholder. -/
def coinbaseTxFinal (fees : Nat) (commitment : List Nat) : List Nat :=
  le32 1 ++
  [0x00] ++ [0x01] ++
  [0x01] ++
  List.replicate 32 0 ++
  le32 0xFFFFFFFF ++
  [scriptSigCB.length] ++ scriptSigCB ++
  [0xFF, 0xFF, 0xFF, 0xFF] ++
  [0x02] ++
  le64 (5000000000 + fees) ++
  [0x19] ++ subsidyScript ++
  List.replicate 8 0 ++
  [(commitmentScript commitment).length] ++ commitmentScript commitment ++
  [0x01] ++
  [0x20] ++
  witness_reserved_value ++
  le32 0

/-- The witness id of one selected record (week 3, line 76):
`hash_twice(bytes.fromhex(tx['hex']))[::-1].hex()`, a `KeyError` when the
record has no `hex` field. -/
def wtxidOf (tx : PoolTx) : Except String (List Nat) :=
  match tx.hex? with
  | some h => Except.ok (hash_twice h).reverse
  | none => Except.error "KeyError: hex"

/-- The `for tx in selected_txs` loops (week 3, lines 75-76 and 114): map a
per-record accessor over the selected records, propagating the first
`KeyError`. -/
def mapExcept (f : PoolTx → Except String (List Nat)) :
    List PoolTx → Except String (List (List Nat))
  | [] => Except.ok []
  | x :: xs => do
      let y ← f x
      let ys ← mapExcept f xs
      pure (y :: ys)

/-- `tx_wtxid_list` (week 3, lines 45-76): the pass-1 coinbase's witness id
followed by each selected record's witness id, in display order. -/
def txWtxidListE (pool : List PoolTx) : Except String (List (List Nat)) := do
  let rest ← mapExcept wtxidOf (selectedTxs pool)
  pure ((hash_twice (coinbaseTxPass1 (totalFees pool))).reverse :: rest)

/-! ### The pairwise double-SHA-256 merkle reduction
The identical loop appears twice in the source: lines 80-84 reduce the
witness leaves, lines 116-120 reduce the transaction-id leaves; both end
with `hash_list[0] if hash_list else bytes(32)`. -/

/-- Replace each adjacent pair `(i, i+1)` by `hash_twice (hash[i] ++ hash[i+1])`. -/
def pairUp : List (List Nat) → List (List Nat)
  | a :: b :: rest => hash_twice (a ++ b) :: pairUp rest
  | _ => []

/-- One level of the reduction: duplicate the last element when the level has
odd length, then pair up. -/
def merkleStep (l : List (List Nat)) : List (List Nat) :=
  if l.length % 2 = 1 then pairUp (l ++ [l.getLastD []]) else pairUp l

/-- The `while len > 1` loop, with fuel; each level at least halves a list of
length ≥ 2, so `l.length` steps always suffice. -/
def merkleRun : Nat → List (List Nat) → List (List Nat)
  | 0, l => l
  | f + 1, l => if l.length ≤ 1 then l else merkleRun f (merkleStep l)

/-- The merkle root of a leaf sequence:
`hash_list[0] if hash_list else bytes(32)` after the reduction loop. -/
def merkleRootHash (l : List (List Nat)) : List Nat :=
  (merkleRun l.length l).headD (List.replicate 32 0)

/-- The witness-root leaves (week 3, line 79): an all-zero coinbase leaf
followed by the selected witness ids turned back from display order to
internal order (`bytes.fromhex(txid)[::-1]`). -/
def witnessLeaves (wtxids : List (List Nat)) : List (List Nat) :=
  if wtxids.isEmpty then []
  else List.replicate 32 0 :: (wtxids.drop 1).map List.reverse

/-- `witness_commitment_value` (week 3, lines 80-85):
`hash_twice(witness_root_hash + witness_reserved_value)`. -/
def witnessCommitmentValue (wtxids : List (List Nat)) : List Nat :=
  hash_twice (merkleRootHash (witnessLeaves wtxids) ++ witness_reserved_value)

/-- A selected record's `txid` (week 3, line 114), a `KeyError` when absent. -/
def txidOf (tx : PoolTx) : Except String (List Nat) :=
  match tx.txid? with
  | some t => Except.ok t
  | none => Except.error "KeyError: txid"

/-- `tx_id_list` (week 3, lines 111-114): the final coinbase's
`hash_twice(coinbase_tx_final)[::-1]` — the hash of the SEGWIT serialization,
marker, flag and witness included — followed by the selected records' txids. -/
def txIdListE (pool : List PoolTx) : Except String (List (List Nat)) := do
  let wl ← txWtxidListE pool
  let ids ← mapExcept txidOf (selectedTxs pool)
  pure ((hash_twice (coinbaseTxFinal (totalFees pool) (witnessCommitmentValue wl))).reverse :: ids)

/-- The block construction pipeline up to the pre-nonce header (week 3,
lines 113-128): merkle root over the id list re-reversed to internal order,
then `version ++ prev_block_hash ++ merkle_root ++ timestamp ++ bits`,
together with the final coinbase bytes and the id list the program writes
out.  `ts` stands for the runtime `int(time.time())` value. -/
def blockConstruction (pool : List PoolTx) (ts : Nat) :
    Except String (List Nat × List Nat × List (List Nat)) := do
  let wl ← txWtxidListE pool
  let ids ← txIdListE pool
  let mr := merkleRootHash (ids.map List.reverse)
  pure (le32 0x20000000 ++ List.replicate 32 0 ++ mr ++ le32 ts ++ le32 0x1f00ffff,
        coinbaseTxFinal (totalFees pool) (witnessCommitmentValue wl),
        ids)

/-- Whether an `Except` result is a success. -/
def isOkE : Except String α → Bool
  | Except.ok _ => true
  | Except.error _ => false

/-- Equality of `Except` results is decidable (needed to evaluate the
pipeline on concrete pools). -/
instance decEqExcept {e a : Type} [DecidableEq e] [DecidableEq a] :
    DecidableEq (Except e a) := fun x y =>
  match x, y with
  | Except.ok u, Except.ok v => decidable_of_iff (u = v) (by simp)
  | Except.ok _, Except.error _ => isFalse (by simp)
  | Except.error _, Except.ok _ => isFalse (by simp)
  | Except.error u, Except.error v => decidable_of_iff (u = v) (by simp)

/-- Python `bytes` comparison: lexicographic order on byte lists. -/
def lexLtBytes : List Nat → List Nat → Bool
  | _, [] => false
  | [], _ :: _ => true
  | a :: as, b :: bs => decide (a < b) || (a == b && lexLtBytes as bs)

/-- The mining success test (week 3, lines 132-134): double-SHA-256 the
header extended with the little-endian nonce, reverse to display order,
compare below the target. -/
def nonceOk (header target : List Nat) (nonce : Nat) : Bool :=
  lexLtBytes (hash_twice (header ++ le32 nonce)).reverse target

/-- First-success linear search: try `P` at `start`, `start+1`, … for `fuel`
candidates, returning the first success. -/
def searchLoop (P : Nat → Bool) : Nat → Nat → Option Nat
  | _, 0 => none
  | start, f + 1 => if P start then some start else searchLoop P (start + 1) f

/-- The nonce loop `for nonce in range(0, 0xFFFFFFFF)` (week 3, line 131):
candidates 0, 1, …, 0xFFFFFFFE — Python's `range` excludes its end point. -/
def findNonce (header target : List Nat) : Option Nat :=
  searchLoop (nonceOk header target) 0 0xFFFFFFFF

/-- The loop's `else: raise ValueError("Valid nonce not found")`
(week 3, lines 138-139). -/
def mineNonce (header target : List Nat) : Except String Nat :=
  match findNonce header target with
  | some n => Except.ok n
  | none => Except.error "Valid nonce not found"

/-! ## Definitions following the claims' words
Each definition below is written from the corresponding claim/spec text,
to be compared against the source-derived definition above, or — for the
legacy coinbase serialization — to supply code the repository does not
contain. -/

/-- The BIP143 digest as claim C2 states it (spec §4.5): the same preimage
layout as `calculate_sighash` but with the spent output value and the
locktime "supplied for the transaction being signed" as parameters. -/
def claimSighash (tx_version : Nat) (tx_inputs : List TxIn) (tx_outputs : List TxOut)
    (redeem_script : List Nat) (spentValue locktime : Nat) : List Nat :=
  let txin0 := tx_inputs.headD ⟨List.replicate 32 0, 0, [], 0⟩
  hash_twice (le32 tx_version ++
    hash_twice (tx_inputs.flatMap (fun txin => txin.prev_txid ++ le32 txin.prev_index)) ++
    hash_twice (tx_inputs.flatMap (fun txin => le32 txin.sequence)) ++
    txin0.prev_txid ++ le32 txin0.prev_index ++
    serialize_varint redeem_script.length ++ redeem_script ++
    le64 spentValue ++ le32 txin0.sequence ++
    hash_twice (serialize_outputs tx_outputs) ++
    le32 locktime ++ le32 0x01)

/-- The extended serialization as claim C4 states it (spec §4.4): after the
outputs, one witness-item count PER INPUT, each followed by that input's
items.  `witnessStacks` lines up with `tx_inputs`. -/
def claimAssembleTx (tx_version : Nat) (tx_inputs : List TxIn) (tx_outputs : List TxOut)
    (witnessStacks : List (List (List Nat))) (locktime : Nat) : List Nat :=
  le32 tx_version ++ [0x00, 0x01] ++
  serialize_varint tx_inputs.length ++ serialize_inputs tx_inputs ++
  serialize_varint tx_outputs.length ++ serialize_outputs tx_outputs ++
  witnessStacks.flatMap (fun stack =>
    serialize_varint stack.length ++
    stack.flatMap (fun item => serialize_varint item.length ++ item)) ++
  le32 locktime

/-- Modelled from the spec: the legacy serialization of the final coinbase —
the form that "OMITS marker, flag, and witness data" even when witness data
is present (spec §3, §4.4) — which the source never constructs: version,
VarInt input count, the one coinbase input, VarInt output count, the two
outputs, locktime; no marker/flag bytes and no witness section. -/
def coinbaseLegacyFromSpec (fees : Nat) (commitment : List Nat) : List Nat :=
  le32 1 ++
  [0x01] ++
  List.replicate 32 0 ++
  le32 0xFFFFFFFF ++
  [scriptSigCB.length] ++ scriptSigCB ++
  [0xFF, 0xFF, 0xFF, 0xFF] ++
  [0x02] ++
  le64 (5000000000 + fees) ++
  [0x19] ++ subsidyScript ++
  List.replicate 8 0 ++
  [(commitmentScript commitment).length] ++ commitmentScript commitment ++
  le32 0

/-- The final-coinbase byte segments shared by the two passes, up to the
commitment (used to state claim C6). -/
def coinbaseSharedHead (fees : Nat) : List Nat :=
  le32 1 ++ [0x00] ++ [0x01] ++ [0x01] ++ List.replicate 32 0 ++ le32 0xFFFFFFFF ++
  [scriptSigCB.length] ++ scriptSigCB ++ [0xFF, 0xFF, 0xFF, 0xFF] ++ [0x02] ++
  le64 (5000000000 + fees) ++ [0x19] ++ subsidyScript ++ List.replicate 8 0 ++
  [0x26] ++ [0x6a, 0x24, 0xaa, 0x21, 0xa9, 0xed]

/-- The final-coinbase byte segments shared by the two passes, after the
commitment (used to state claim C6). -/
def coinbaseSharedTail : List Nat :=
  [0x01] ++ [0x20] ++ witness_reserved_value ++ le32 0

/-! ## Helper lemmas -/

theorem sha256Rounds_length :
    ∀ (kws : List (Nat × Nat)) (a b c d e f g h : Nat),
      (sha256Rounds kws a b c d e f g h).length = 8 := by
  intro kws
  induction kws with
  | nil => intro a b c d e f g h; rfl
  | cons kw kws ih =>
      intro a b c d e f g h
      obtain ⟨k, w⟩ := kw
      simpa [sha256Rounds] using ih _ _ _ _ _ _ _ _

theorem sha256Compress_length (st block : List Nat) (h : st.length = 8) :
    (sha256Compress st block).length = 8 := by
  simp [sha256Compress, List.length_zipWith, sha256Rounds_length, h]

theorem sha256Chunks_length :
    ∀ (n : Nat) (st msg : List Nat), st.length = 8 → (sha256Chunks n st msg).length = 8 := by
  intro n
  induction n with
  | zero => intro st msg h; simpa [sha256Chunks] using h
  | succ n ih =>
      intro st msg h
      simpa [sha256Chunks] using ih _ _ (sha256Compress_length _ _ h)

theorem flatMap_be32_length : ∀ l : List Nat, (l.flatMap be32).length = 4 * l.length := by
  intro l
  induction l with
  | nil => rfl
  | cons x xs ih => simp [List.flatMap_cons, ih, be32]; omega

theorem sha256_length (msg : List Nat) : (sha256 msg).length = 32 := by
  have h := sha256Chunks_length ((sha256Pad msg).length / 64) sha256IV (sha256Pad msg) rfl
  simp only [sha256]
  rw [flatMap_be32_length, h]

theorem hash_twice_length (d : List Nat) : (hash_twice d).length = 32 :=
  sha256_length _

/-- Nothing of length ≥ `n` is lexicographically below `n` zero bytes. -/
theorem lexLt_zeros : ∀ (n : Nat) (x : List Nat), n ≤ x.length →
    lexLtBytes x (List.replicate n 0) = false := by
  intro n
  induction n with
  | zero => intro x _; cases x <;> rfl
  | succ n ih =>
      intro x hx
      cases x with
      | nil => simp at hx
      | cons a as =>
          simp only [List.replicate_succ, lexLtBytes]
          have : lexLtBytes as (List.replicate n 0) = false := by
            have : n ≤ as.length := by simpa using Nat.le_of_succ_le_succ hx
            exact ih as this
          simp [this]

/-- A zero target never passes the mining comparison. -/
theorem nonceOk_zeroTarget (header : List Nat) (n : Nat) :
    nonceOk header (List.replicate 32 0) n = false := by
  have hlen : 32 ≤ (hash_twice (header ++ le32 n)).reverse.length := by
    simp [hash_twice_length]
  exact lexLt_zeros 32 _ hlen

theorem searchLoop_none (P : Nat → Bool) :
    ∀ (fuel start : Nat), (∀ i, i < fuel → P (start + i) = false) →
      searchLoop P start fuel = none := by
  intro fuel
  induction fuel with
  | zero => intro start _; rfl
  | succ f ih =>
      intro start h
      have h0 : P start = false := by simpa using h 0 (Nat.succ_pos f)
      have hrest : ∀ i, i < f → P (start + 1 + i) = false := by
        intro i hi
        have := h (i + 1) (Nat.succ_lt_succ hi)
        simpa [Nat.add_assoc, Nat.add_comm 1 i] using this
      simp [searchLoop, h0, ih _ hrest]

theorem searchLoop_some (P : Nat → Bool) :
    ∀ (fuel start k : Nat), k < fuel → P (start + k) = true →
      (∀ i, i < k → P (start + i) = false) →
      searchLoop P start fuel = some (start + k) := by
  intro fuel
  induction fuel with
  | zero => intro start k hk; omega
  | succ f ih =>
      intro start k hk hPk hless
      cases k with
      | zero =>
          have h0 : P start = true := by simpa using hPk
          simp [searchLoop, h0]
      | succ k =>
          have h0 : P start = false := by simpa using hless 0 (Nat.succ_pos k)
          have hP : P (start + 1 + k) = true := by
            simpa [Nat.add_assoc, Nat.add_comm 1 k] using hPk
          have hl : ∀ i, i < k → P (start + 1 + i) = false := by
            intro i hi
            have := hless (i + 1) (Nat.succ_lt_succ hi)
            simpa [Nat.add_assoc, Nat.add_comm 1 i] using this
          have := ih (start + 1) k (Nat.lt_of_succ_lt_succ hk) hP hl
          simp [searchLoop, h0, this, Nat.add_assoc, Nat.add_comm 1 k]

theorem searchLoop_first (P : Nat → Bool) :
    ∀ (fuel start n : Nat), searchLoop P start fuel = some n →
      P n = true ∧ start ≤ n ∧ n < start + fuel ∧
      ∀ m, start ≤ m → m < n → P m = false := by
  intro fuel
  induction fuel with
  | zero => intro start n h; simp [searchLoop] at h
  | succ f ih =>
      intro start n h
      by_cases h0 : P start = true
      · have : n = start := by
          simp [searchLoop, h0] at h
          omega
        subst this
        exact ⟨h0, Nat.le_refl _, by omega, fun m hm hm2 => by omega⟩
      · have h0f : P start = false := by simpa using h0
        have hrec := ih (start + 1) n (by simpa [searchLoop, h0f] using h)
        refine ⟨hrec.1, by omega, by omega, ?_⟩
        intro m hm hmn
        rcases Nat.eq_or_lt_of_le hm with heq | hlt
        · simpa [← heq] using h0f
        · exact hrec.2.2.2 m hlt hmn

theorem selGo_snd_le :
    ∀ (l sel : List PoolTx) (tot : Nat), tot ≤ max_block_size - 4000 →
      (selGo l sel tot).2 ≤ max_block_size - 4000 := by
  intro l
  induction l with
  | nil => intro sel tot h; simpa [selGo] using h
  | cons tx rest ih =>
      intro sel tot h
      by_cases hfit : tot + txWeight tx ≤ max_block_size - 4000
      · simpa [selGo, hfit] using ih _ _ hfit
      · simpa [selGo, hfit] using ih _ _ h

theorem selGo_weightSum :
    ∀ (l sel : List PoolTx) (tot : Nat), weightSum sel = tot →
      weightSum (selGo l sel tot).1 = (selGo l sel tot).2 := by
  intro l
  induction l with
  | nil => intro sel tot h; simpa [selGo] using h
  | cons tx rest ih =>
      intro sel tot h
      by_cases hfit : tot + txWeight tx ≤ max_block_size - 4000
      · have : weightSum (sel ++ [tx]) = tot + txWeight tx := by
          simp [weightSum] at h ⊢
          omega
        simpa [selGo, hfit] using ih _ _ this
      · simpa [selGo, hfit] using ih _ _ h

theorem weightSum_selected_le (pool : List PoolTx) :
    weightSum (selectedTxs pool) ≤ max_block_size - 4000 := by
  have h1 := selGo_snd_le ((sortedValid pool).map Prod.snd) [] 0 (by simp [max_block_size])
  have h2 := selGo_weightSum ((sortedValid pool).map Prod.snd) [] 0 (by simp [weightSum])
  simpa [selectedTxs, h2] using h1

theorem selGo_mem :
    ∀ (l sel : List PoolTx) (tot : Nat) (x : PoolTx),
      x ∈ (selGo l sel tot).1 → x ∈ sel ∨ x ∈ l := by
  intro l
  induction l with
  | nil => intro sel tot x h; simp [selGo] at h; exact Or.inl h
  | cons tx rest ih =>
      intro sel tot x h
      by_cases hfit : tot + txWeight tx ≤ max_block_size - 4000
      · rw [selGo, if_pos hfit] at h
        rcases ih _ _ x h with hs | hr
        · simp at hs
          rcases hs with hs | hs
          · exact Or.inl hs
          · exact Or.inr (by simp [hs])
        · exact Or.inr (by simp [hr])
      · rw [selGo, if_neg hfit] at h
        rcases ih _ _ x h with hs | hr
        · exact Or.inl hs
        · exact Or.inr (by simp [hr])

theorem insertByDens_perm (x : Nat × PoolTx) :
    ∀ l : List (Nat × PoolTx), (insertByDens x l).Perm (x :: l) := by
  intro l
  induction l with
  | nil => simp [insertByDens]
  | cons y ys ih =>
      by_cases h : densBefore x y = true
      · simp [insertByDens, h]
      · rw [insertByDens, if_neg h]
        exact List.Perm.trans (List.Perm.cons y ih) (List.Perm.swap x y ys)

theorem sortByDens_perm : ∀ l : List (Nat × PoolTx), (sortByDens l).Perm l := by
  intro l
  induction l with
  | nil => simp [sortByDens]
  | cons x xs ih =>
      exact List.Perm.trans (insertByDens_perm x _) (List.Perm.cons x ih)

theorem densBefore_total (a b : Nat × PoolTx) :
    densBefore a b = true ∨ densBefore b a = true := by
  simp only [densBefore, Bool.or_eq_true, Bool.and_eq_true, decide_eq_true_eq]
  omega

theorem densBefore_trans (a b c : Nat × PoolTx)
    (ha : 0 < txWeight a.2) (hb : 0 < txWeight b.2) (hc : 0 < txWeight c.2)
    (h1 : densBefore a b = true) (h2 : densBefore b c = true) :
    densBefore a c = true := by
  simp only [densBefore, Bool.or_eq_true, Bool.and_eq_true, decide_eq_true_eq] at h1 h2 ⊢
  set fa := txFee a.2 with hfa
  set wa := txWeight a.2 with hwa
  set fb := txFee b.2 with hfb
  set wb := txWeight b.2 with hwb
  set fc := txFee c.2 with hfc
  set wc := txWeight c.2 with hwc
  rcases h1 with h1 | ⟨h1e, h1i⟩ <;> rcases h2 with h2 | ⟨h2e, h2i⟩
  · left
    have key : fc * wa * wb < fa * wc * wb := by
      calc fc * wa * wb = fc * wb * wa := by ring
        _ < fb * wc * wa := by exact (Nat.mul_lt_mul_right ha).mpr h2
        _ = fb * wa * wc := by ring
        _ < fa * wb * wc := by exact (Nat.mul_lt_mul_right hc).mpr h1
        _ = fa * wc * wb := by ring
    exact Nat.lt_of_mul_lt_mul_right key
  · left
    have key : fc * wa * wb < fa * wc * wb := by
      calc fc * wa * wb = fc * wb * wa := by ring
        _ = fb * wc * wa := by rw [h2e]
        _ = fb * wa * wc := by ring
        _ < fa * wb * wc := by exact (Nat.mul_lt_mul_right hc).mpr h1
        _ = fa * wc * wb := by ring
    exact Nat.lt_of_mul_lt_mul_right key
  · left
    have key : fc * wa * wb < fa * wc * wb := by
      calc fc * wa * wb = fc * wb * wa := by ring
        _ < fb * wc * wa := by exact (Nat.mul_lt_mul_right ha).mpr h2
        _ = fb * wa * wc := by ring
        _ = fa * wb * wc := by rw [← h1e]
        _ = fa * wc * wb := by ring
    exact Nat.lt_of_mul_lt_mul_right key
  · right
    constructor
    · have key : fa * wc * wb = fc * wa * wb := by
        calc fa * wc * wb = fa * wb * wc := by ring
          _ = fb * wa * wc := by rw [h1e]
          _ = fb * wc * wa := by ring
          _ = fc * wb * wa := by rw [h2e]
          _ = fc * wa * wb := by ring
      exact Nat.eq_of_mul_eq_mul_right hb key
    · omega

theorem mem_insertByDens {z x : Nat × PoolTx} {l : List (Nat × PoolTx)}
    (h : z ∈ insertByDens x l) : z = x ∨ z ∈ l := by
  have := (insertByDens_perm x l).mem_iff.mp h
  simpa using this

theorem mem_sortByDens {z : Nat × PoolTx} {l : List (Nat × PoolTx)}
    (h : z ∈ sortByDens l) : z ∈ l :=
  (sortByDens_perm l).mem_iff.mp h

theorem pairwise_insertByDens (x : Nat × PoolTx) :
    ∀ l : List (Nat × PoolTx),
      (∀ y, y ∈ x :: l → 0 < txWeight y.2) →
      l.Pairwise (fun a b => densBefore a b = true) →
      (insertByDens x l).Pairwise (fun a b => densBefore a b = true) := by
  intro l
  induction l with
  | nil => intro _ _; simp [insertByDens]
  | cons y ys ih =>
      intro hpos hp
      rcases List.pairwise_cons.mp hp with ⟨hy, hys⟩
      by_cases h : densBefore x y = true
      · rw [insertByDens, if_pos h]
        refine List.pairwise_cons.mpr ⟨?_, hp⟩
        intro z hz
        rcases List.mem_cons.mp hz with hzy | hzys
        · exact hzy ▸ h
        · exact densBefore_trans x y z
            (hpos x (by simp)) (hpos y (by simp)) (hpos z (by simp [hzys]))
            h (hy z hzys)
      · rw [insertByDens, if_neg h]
        have hxy : densBefore y x = true := by
          rcases densBefore_total x y with ht | ht
          · exact absurd ht h
          · exact ht
        refine List.pairwise_cons.mpr ⟨?_, ?_⟩
        · intro z hz
          rcases mem_insertByDens hz with hzx | hzys
          · exact hzx ▸ hxy
          · exact hy z hzys
        · refine ih ?_ hys
          intro z hz
          rcases List.mem_cons.mp hz with hzx | hzys
          · exact hzx ▸ hpos x (by simp)
          · exact hpos z (by simp [hzys])

theorem pairwise_sortByDens :
    ∀ l : List (Nat × PoolTx),
      (∀ y, y ∈ l → 0 < txWeight y.2) →
      (sortByDens l).Pairwise (fun a b => densBefore a b = true) := by
  intro l
  induction l with
  | nil => intro _; simp [sortByDens]
  | cons x xs ih =>
      intro hpos
      rw [sortByDens]
      refine pairwise_insertByDens x (sortByDens xs) ?_ (ih ?_)
      · intro y hy
        rcases List.mem_cons.mp hy with hyx | hys
        · exact hyx ▸ hpos x (by simp)
        · exact hpos y (by simp [mem_sortByDens hys])
      · intro y hy
        exact hpos y (by simp [hy])

theorem tagIdx_map_snd : ∀ (i : Nat) (l : List PoolTx), (tagIdx i l).map Prod.snd = l := by
  intro i l
  induction l generalizing i with
  | nil => rfl
  | cons x xs ih => simp [tagIdx, ih]

theorem mem_tagIdx {p : Nat × PoolTx} :
    ∀ (i : Nat) (l : List PoolTx), p ∈ tagIdx i l → p.2 ∈ l := by
  intro i l
  induction l generalizing i with
  | nil => intro h; simp [tagIdx] at h
  | cons x xs ih =>
      intro h
      rcases List.mem_cons.mp h with hp | hp
      · simp [hp]
      · exact List.mem_cons.mpr (Or.inr (ih _ hp))

theorem selectedTxs_subset {pool : List PoolTx} {x : PoolTx}
    (h : x ∈ selectedTxs pool) : x ∈ validTxs pool := by
  rcases selGo_mem _ _ _ _ h with hs | hl
  · simp at hs
  · rcases List.mem_map.mp hl with ⟨p, hp, hpx⟩
    have := mem_tagIdx 0 (validTxs pool) (mem_sortByDens hp)
    exact hpx ▸ this

theorem mapExcept_ok (f : PoolTx → Except String (List Nat)) :
    ∀ l : List PoolTx, (∀ x ∈ l, isOkE (f x) = true) →
      ∃ ys, mapExcept f l = Except.ok ys := by
  intro l
  induction l with
  | nil => intro _; exact ⟨[], rfl⟩
  | cons x xs ih =>
      intro h
      have hx : isOkE (f x) = true := h x (by simp)
      obtain ⟨y, hy⟩ : ∃ y, f x = Except.ok y := by
        cases hfx : f x with
        | ok y => exact ⟨y, rfl⟩
        | error e => rw [hfx] at hx; simp [isOkE] at hx
      obtain ⟨ys, hys⟩ := ih (fun z hz => h z (by simp [hz]))
      exact ⟨y :: ys, by simp [mapExcept, hy, hys, Bind.bind, Except.bind, pure, Except.pure]⟩

/-! ## Claim theorems -/

/-- Claim C8: the pairwise double-SHA256 merkle reduction returns the single
element unchanged for a one-element input, returns SHA256d(a ‖ b) for a
two-element input, duplicates the last element before pairing when the
level has odd length (three leaves reduce to
SHA256d(SHA256d(a‖b) ‖ SHA256d(c‖c))), and returns the all-zero 32-byte
root for an empty input. -/
theorem merkle_reduction_basic :
    merkleRootHash ([] : List (List Nat)) = List.replicate 32 0 ∧
    (∀ a : List Nat, merkleRootHash [a] = a) ∧
    (∀ a b : List Nat, merkleRootHash [a, b] = hash_twice (a ++ b)) ∧
    (∀ a b c : List Nat, merkleRootHash [a, b, c] =
      hash_twice (hash_twice (a ++ b) ++ hash_twice (c ++ c))) := by
  refine ⟨rfl, fun a => rfl, fun a b => ?_, fun a b c => ?_⟩ <;>
    simp [merkleRootHash, merkleRun, merkleStep, pairUp]

set_option maxHeartbeats 1000000 in
/-- Claim C6: the pass-2 coinbase is byte-for-byte the pass-1 coinbase with
the 32 placeholder zero bytes of the commitment script replaced by
`SHA256d(witnessRoot ‖ reservedValue)`, the witness root being built from a
32-zero-byte coinbase leaf followed by the selected witness ids; all
surrounding bytes (version, input, subsidy output, witness item, locktime)
are the shared head and tail segments. -/
theorem coinbase_two_pass_commitment (fees : Nat) (wtxids : List (List Nat)) :
    coinbaseTxPass1 fees =
      coinbaseSharedHead fees ++ List.replicate 32 0 ++ coinbaseSharedTail ∧
    coinbaseTxFinal fees (witnessCommitmentValue wtxids) =
      coinbaseSharedHead fees ++ witnessCommitmentValue wtxids ++ coinbaseSharedTail ∧
    witnessCommitmentValue wtxids =
      hash_twice (merkleRootHash (witnessLeaves wtxids) ++ witness_reserved_value) := by
  refine ⟨?_, ?_, rfl⟩
  · simp [coinbaseTxPass1, coinbaseSharedHead, coinbaseSharedTail, commitmentScript,
      scriptSigCB, witness_reserved_value]
  · have hlen : (witnessCommitmentValue wtxids).length = 32 := hash_twice_length _
    have hcs : (commitmentScript (witnessCommitmentValue wtxids)).length = 38 := by
      simp [commitmentScript, hlen]
    simp only [coinbaseTxFinal, coinbaseSharedHead, coinbaseSharedTail, hcs]
    simp [commitmentScript, scriptSigCB, witness_reserved_value]

/-- Claim C2 (amended): for a single-input spend, `calculate_sighash` returns
SHA256d of the BIP143 preimage with the spent output value FIXED at 100000
and the locktime field FIXED at 0, whatever locktime is supplied. -/
theorem sighash_fixed_constants (ver : Nat) (txin : TxIn) (outs : List TxOut)
    (redeem : List Nat) (lt : Nat) :
    calculate_sighash ver [txin] outs redeem lt =
      claimSighash ver [txin] outs redeem 100000 0 := by
  simp [calculate_sighash, claimSighash, serialize_outputs, List.append_assoc]

/-- Claim C4 (amended): the extended serialization writes a single
witness-item count for the transaction-wide witness list; for a single-input
transaction this coincides with the claimed per-input layout. -/
theorem assemble_single_input (ver : Nat) (txin : TxIn) (outs : List TxOut)
    (w : List (List Nat)) (lt : Nat) :
    assemble_transaction ver [txin] outs w lt =
      claimAssembleTx ver [txin] outs [w] lt := by
  simp [assemble_transaction, claimAssembleTx]

/-- Claim C5: candidates are considered in descending fee-per-weight order
with ties broken by original input order (the pairwise ordering of the
index-tagged sorted list), every valid candidate is considered (the sorted
list is a permutation of `valid_txs`), and the selected weight never exceeds
the 4000000 − 4000 budget. -/
theorem selection_sorted_and_bounded (pool : List PoolTx) :
    ((∀ tx ∈ validTxs pool, 0 < txWeight tx) →
      (sortedValid pool).Pairwise (fun a b => densBefore a b = true)) ∧
    ((sortedValid pool).map Prod.snd).Perm (validTxs pool) ∧
    weightSum (selectedTxs pool) ≤ max_block_size - 4000 := by
  refine ⟨?_, ?_, weightSum_selected_le pool⟩
  · intro hpos
    refine pairwise_sortByDens _ ?_
    intro y hy
    exact hpos y.2 (mem_tagIdx 0 _ hy)
  · have h2 := (sortByDens_perm (tagIdx 0 (validTxs pool))).map Prod.snd
    rw [tagIdx_map_snd] at h2
    exact h2

/-- Claim C5 witness: the spec's own selection example — fees 10, 5, 8 with
weights 100, 50, 80 — is sorted and stays within the budget. -/
theorem selection_sorted_and_bounded_witness :
    (sortedValid [⟨some 10, some 100, none, none⟩, ⟨some 5, some 50, none, none⟩,
        ⟨some 8, some 80, none, none⟩]).Pairwise (fun a b => densBefore a b = true) ∧
    weightSum (selectedTxs [⟨some 10, some 100, none, none⟩, ⟨some 5, some 50, none, none⟩,
        ⟨some 8, some 80, none, none⟩]) ≤ max_block_size - 4000 :=
  ⟨(selection_sorted_and_bounded [⟨some 10, some 100, none, none⟩,
      ⟨some 5, some 50, none, none⟩, ⟨some 8, some 80, none, none⟩]).1 (by decide),
   (selection_sorted_and_bounded [⟨some 10, some 100, none, none⟩,
      ⟨some 5, some 50, none, none⟩, ⟨some 8, some 80, none, none⟩]).2.2⟩

/-- Claim C10: a candidate too heavy for the remaining budget is skipped and
the scan continues; concretely, with records A (fee 3000000000, weight
3000000), B (fee 1000000000, weight 2000000), C (fee 9000, weight 900000)
the density order is A, B, C, B no longer fits after A, yet C is still
accepted — the selected set [A, C] is not a prefix of the sorted pool. -/
theorem selection_scan_continues :
    (∀ (tx : PoolTx) (rest sel : List PoolTx) (tot : Nat),
        ¬ (tot + txWeight tx ≤ max_block_size - 4000) →
        selGo (tx :: rest) sel tot = selGo rest sel tot) ∧
    selectedTxs [⟨some 3000000000, some 3000000, none, none⟩,
        ⟨some 1000000000, some 2000000, none, none⟩,
        ⟨some 9000, some 900000, none, none⟩] =
      [⟨some 3000000000, some 3000000, none, none⟩, ⟨some 9000, some 900000, none, none⟩] ∧
    (sortedValid [⟨some 3000000000, some 3000000, none, none⟩,
        ⟨some 1000000000, some 2000000, none, none⟩,
        ⟨some 9000, some 900000, none, none⟩]).map Prod.snd =
      [⟨some 3000000000, some 3000000, none, none⟩,
       ⟨some 1000000000, some 2000000, none, none⟩,
       ⟨some 9000, some 900000, none, none⟩] ∧
    selectedTxs [⟨some 3000000000, some 3000000, none, none⟩,
        ⟨some 1000000000, some 2000000, none, none⟩,
        ⟨some 9000, some 900000, none, none⟩] ≠
      ((sortedValid [⟨some 3000000000, some 3000000, none, none⟩,
        ⟨some 1000000000, some 2000000, none, none⟩,
        ⟨some 9000, some 900000, none, none⟩]).map Prod.snd).take 2 := by
  refine ⟨?_, by decide, by decide, by decide⟩
  intro tx rest sel tot h
  simp [selGo, h]

/-- Claim C10 witness: a record heavier than the whole budget is skipped
while the scan goes on with the rest of the list. -/
theorem selection_scan_continues_witness :
    selGo [⟨some 1, some 4000000, none, none⟩] [] 0 = selGo [] [] 0 :=
  selection_scan_continues.1 ⟨some 1, some 4000000, none, none⟩ [] [] 0 (by decide)

/-- Claim C3 (amended): the nonce search iterates in increasing order over
the 4294967295 candidates 0 … 0xFFFFFFFE — `range(0, 0xFFFFFFFF)` stops one
short of the full 32-bit range — returns the first candidate whose
display-order hash is lexicographically (numerically, on equal-length byte
strings) below the target, and raises `ValueError("Valid nonce not found")`
when no examined nonce succeeds, in particular for an all-zero target. -/
theorem nonce_search_first_success (header target : List Nat) :
    (∀ n, findNonce header target = some n →
        nonceOk header target n = true ∧ n < 4294967295 ∧
        ∀ m, m < n → nonceOk header target m = false) ∧
    ((∀ n, n < 4294967295 → nonceOk header target n = false) →
        mineNonce header target = Except.error "Valid nonce not found") ∧
    (target = List.replicate 32 0 →
        mineNonce header target = Except.error "Valid nonce not found") := by
  have exhausted : (∀ n, n < 4294967295 → nonceOk header target n = false) →
      mineNonce header target = Except.error "Valid nonce not found" := by
    intro h
    have hn : findNonce header target = none := by
      apply searchLoop_none
      intro i hi
      simpa using h i (by simpa using hi)
    simp [mineNonce, hn]
  refine ⟨?_, exhausted, ?_⟩
  · intro n h
    have hfirst := searchLoop_first (nonceOk header target) 4294967295 0 n h
    refine ⟨hfirst.1, by omega, ?_⟩
    intro m hm
    exact hfirst.2.2.2 m (Nat.zero_le m) hm
  · intro h
    subst h
    exact exhausted (fun n _ => nonceOk_zeroTarget header n)

/-- Claim C3 witness: with an all-0xff target the very first nonce wins and
is returned as the first success; with the all-zero target the search
reports the explicit nonce-exhausted `ValueError`. -/
theorem nonce_search_first_success_witness :
    (nonceOk [] (List.replicate 32 255) 0 = true ∧ 0 < 4294967295 ∧
      (∀ m, m < 0 → nonceOk [] (List.replicate 32 255) m = false)) ∧
    mineNonce [] (List.replicate 32 0) = Except.error "Valid nonce not found" :=
  ⟨(nonce_search_first_success [] (List.replicate 32 255)).1 0 (by decide),
   (nonce_search_first_success [] (List.replicate 32 0)).2.2 rfl⟩

/-- Claim C3 counterexample: the loop bound is 0xFFFFFFFF, so a predicate
that holds only at nonce 0xFFFFFFFF is never found by the code's iteration,
although the full 32-bit range (bound 0x100000000 = 2^32) would find it;
`findNonce` runs `searchLoop` with exactly that smaller bound. -/
theorem nonce_search_misses_last :
    searchLoop (fun n => decide (n = 4294967295)) 0 4294967295 = none ∧
    searchLoop (fun n => decide (n = 4294967295)) 0 4294967296 = some 4294967295 ∧
    findNonce = fun header target => searchLoop (nonceOk header target) 0 4294967295 := by
  refine ⟨?_, ?_, rfl⟩
  · apply searchLoop_none
    intro i hi
    simp
    omega
  · have h := searchLoop_some (fun n => decide (n = 4294967295)) 4294967296 0 4294967295
      (by omega) (by simp) (fun i hi => by simp; omega)
    simpa using h

/-- Claim C7 (amended): a record missing `fee` or `weight` is skipped by the
`valid_txs` filter and is harmless, but the filter does not check `txid` or
`hex`: whenever every valid record carries them, construction succeeds,
while a selected record missing one of them raises a fatal `KeyError`
(see the counterexample). -/
theorem malformed_records_handling (pool : List PoolTx) (ts : Nat) (r : PoolTx) :
    ((r.fee?.isSome && r.weight?.isSome) = false →
        validTxs (r :: pool) = validTxs pool) ∧
    ((∀ tx ∈ validTxs pool, tx.hex?.isSome = true ∧ tx.txid?.isSome = true) →
        isOkE (blockConstruction pool ts) = true) := by
  constructor
  · intro h
    simp only [validTxs, List.filter_cons]
    rw [if_neg (by simp [h])]
  · intro h
    have hsel : ∀ tx ∈ selectedTxs pool, tx.hex?.isSome = true ∧ tx.txid?.isSome = true :=
      fun tx htx => h tx (selectedTxs_subset htx)
    obtain ⟨ws, hws⟩ := mapExcept_ok wtxidOf (selectedTxs pool) (fun x hx => by
      obtain ⟨hh, _⟩ := hsel x hx
      obtain ⟨v, hv⟩ := Option.isSome_iff_exists.mp hh
      simp [wtxidOf, hv, isOkE])
    obtain ⟨is, his⟩ := mapExcept_ok txidOf (selectedTxs pool) (fun x hx => by
      obtain ⟨_, ht⟩ := hsel x hx
      obtain ⟨v, hv⟩ := Option.isSome_iff_exists.mp ht
      simp [txidOf, hv, isOkE])
    simp [blockConstruction, txIdListE, txWtxidListE, hws, his, Bind.bind, Except.bind,
      pure, Except.pure, isOkE]

/-- Claim C7 witness: with one complete record (and with fee/weight-less
records skippable per the first conjunct), construction succeeds end to
end. -/
theorem malformed_records_handling_witness :
    validTxs [⟨none, some 7, some [1], some [2]⟩, ⟨some 3, some 4, some [5], some [6]⟩] =
      validTxs [⟨some 3, some 4, some [5], some [6]⟩] ∧
    isOkE (blockConstruction [⟨some 3, some 4, some [5], some [6]⟩] 0) = true :=
  ⟨(malformed_records_handling [⟨some 3, some 4, some [5], some [6]⟩] 0
      ⟨none, some 7, some [1], some [2]⟩).1 (by decide),
   (malformed_records_handling [⟨some 3, some 4, some [5], some [6]⟩] 0
      ⟨none, some 7, some [1], some [2]⟩).2 (by decide)⟩

/-- Claim C7 counterexample: a record carrying `fee` and `weight` but no
`hex` passes the filter, is selected, and then block construction FAILS
(the source raises `KeyError` at `tx['hex']`), contradicting "malformed or
incomplete records are never fatal". -/
theorem malformed_record_fatal :
    isOkE (blockConstruction [⟨some 1, some 1, none, none⟩] 0) = false := by decide

/-- Claim C9: for an address that Base58-decodes, `create_scriptPubKey`
returns `0xa9 0x14 ‖ payload-after-version-byte ‖ 0x87` exactly when the
Base58Check checksum (first 4 bytes of the double SHA-256 of the rest)
matches the trailing 4 bytes, and fails with the invalid-checksum
`ValueError` exactly when it does not. -/
theorem scriptPubKey_from_address (addr : List Char) (raw : List Nat)
    (hdec : b58decode addr = some raw) :
    ((hash_twice (raw.take (raw.length - 4))).take 4 = raw.drop (raw.length - 4) →
        create_scriptPubKey addr =
          Except.ok ([0xa9, 0x14] ++ (raw.take (raw.length - 4)).drop 1 ++ [0x87])) ∧
    ((hash_twice (raw.take (raw.length - 4))).take 4 ≠ raw.drop (raw.length - 4) →
        create_scriptPubKey addr = Except.error "Invalid checksum") := by
  constructor
  · intro h
    simp [create_scriptPubKey, b58decode_check, hdec, h, Except.map]
  · intro h
    simp [create_scriptPubKey, b58decode_check, hdec, h, Except.map]

/-- Claim C9 witness: the repository's literal output address
`325UUecEQuyrTd28Xs2hvAxdAjHM7XzqVF` yields the P2SH script over its
20-byte hash160 payload, and the same address with its last character
altered fails the checksum. -/
theorem scriptPubKey_from_address_witness :
    create_scriptPubKey
        ['3', '2', '5', 'U', 'U', 'e', 'c', 'E', 'Q', 'u', 'y', 'r', 'T', 'd', '2', '8',
         'X', 's', '2', 'h', 'v', 'A', 'x', 'd', 'A', 'j', 'H', 'M', '7', 'X', 'z', 'q',
         'V', 'F'] =
      Except.ok ([0xa9, 0x14] ++
        (([5, 4, 63, 81, 35, 1, 182, 111, 250, 141, 115, 231, 25, 7, 226, 176, 184, 9,
           137, 82, 21, 146, 88, 234, 174] : List Nat).take
          (([5, 4, 63, 81, 35, 1, 182, 111, 250, 141, 115, 231, 25, 7, 226, 176, 184, 9,
             137, 82, 21, 146, 88, 234, 174] : List Nat).length - 4)).drop 1 ++ [0x87]) ∧
    create_scriptPubKey
        ['3', '2', '5', 'U', 'U', 'e', 'c', 'E', 'Q', 'u', 'y', 'r', 'T', 'd', '2', '8',
         'X', 's', '2', 'h', 'v', 'A', 'x', 'd', 'A', 'j', 'H', 'M', '7', 'X', 'z', 'q',
         'V', 'G'] =
      Except.error "Invalid checksum" :=
  ⟨(scriptPubKey_from_address
      ['3', '2', '5', 'U', 'U', 'e', 'c', 'E', 'Q', 'u', 'y', 'r', 'T', 'd', '2', '8',
       'X', 's', '2', 'h', 'v', 'A', 'x', 'd', 'A', 'j', 'H', 'M', '7', 'X', 'z', 'q',
       'V', 'F']
      [5, 4, 63, 81, 35, 1, 182, 111, 250, 141, 115, 231, 25, 7, 226, 176, 184, 9,
       137, 82, 21, 146, 88, 234, 174] (by decide)).1 (by decide),
   (scriptPubKey_from_address
      ['3', '2', '5', 'U', 'U', 'e', 'c', 'E', 'Q', 'u', 'y', 'r', 'T', 'd', '2', '8',
       'X', 's', '2', 'h', 'v', 'A', 'x', 'd', 'A', 'j', 'H', 'M', '7', 'X', 'z', 'q',
       'V', 'G']
      [5, 4, 63, 81, 35, 1, 182, 111, 250, 141, 115, 231, 25, 7, 226, 176, 184, 9,
       137, 82, 21, 146, 88, 234, 175] (by decide)).2 (by decide)⟩

set_option maxHeartbeats 4000000 in
/-- Claim C2 counterexample: with locktime 1 supplied for the transaction
being signed, `calculate_sighash` does not return the digest of the claimed
preimage (it packs locktime 0 instead): the two digests differ on this
concrete single-input spend. -/
theorem sighash_ignores_locktime :
    calculate_sighash 2 [⟨List.replicate 32 0, 0, [], 4294967295⟩]
        [⟨100000, [0x51]⟩] [0x51] 1 ≠
      claimSighash 2 [⟨List.replicate 32 0, 0, [], 4294967295⟩]
        [⟨100000, [0x51]⟩] [0x51] 100000 1 := by decide

/-- Claim C4 counterexample: for a two-input transaction with no witness
items anywhere, `assemble_transaction` emits ONE zero witness count for the
whole transaction while the claimed per-input layout emits two — the byte
strings differ. -/
theorem assemble_two_inputs_differs :
    assemble_transaction 2
        [⟨List.replicate 32 0, 0, [], 0⟩, ⟨List.replicate 32 0, 1, [], 0⟩] [] [] 0 ≠
      claimAssembleTx 2
        [⟨List.replicate 32 0, 0, [], 0⟩, ⟨List.replicate 32 0, 1, [], 0⟩] [] [[], []] 0 := by
  decide

set_option maxHeartbeats 16000000 in
/-- Claim C1 (code evaluated at the failing input): with an empty pool the
program's `tx_id_list` places first the reversed double SHA-256 of
`coinbase_tx_final` — the SEGWIT serialization, with marker, flag and
witness data — whose commitment is SHA256d of 64 zero bytes (witness root
32 zero bytes ‖ reserved value 32 zero bytes); that digest differs from the
double SHA-256 of the legacy serialization that omits marker, flag and
witness data, which claim C1 (and the spec's legacy-id invariant) says is
the id that must come first. -/
theorem coinbase_first_id_is_wtxid :
    txIdListE [] = Except.ok
        [(hash_twice (coinbaseTxFinal 0 (hash_twice (List.replicate 64 0)))).reverse] ∧
    hash_twice (coinbaseTxFinal 0 (hash_twice (List.replicate 64 0))) ≠
      hash_twice (coinbaseLegacyFromSpec 0 (hash_twice (List.replicate 64 0))) := by
  constructor
  · decide
  · decide
